import Mathlib

/-!
Verification of the mod-manager core in `beatmodsapi.py` (module `bsmm`).

The Python data model and the `Patcher` operations are shallowly embedded:
`ModSpec` objects live in a heap (a list of records), and the `Patcher`
lists (`local`, `remote`, `need_install`, `need_uninstall`, `need_update`)
hold heap indices, mirroring Python object references.  External I/O
(HTTP fetch, zip archives, the filesystem) is modelled by an explicit
environment and an event trace.
-/

/-- `ModCategories` enum from `beatmodsapi.py`. -/
inductive ModCategories where
  | CORE
  | LIBRARY
  | COSMETIC
  | GAMEPLAY
  | UI
  | OTHER
deriving DecidableEq, Repr, Inhabited

/-- One entry of a `ModSpec.files` list: a relative path and an MD5 hexdigest. -/
structure FileEntry where
  file : String
  hash : String
deriving DecidableEq, Repr, Inhabited

/-- A dependency reference as consumed by `Patcher.addMod` / `removeMod`
(a beatmods dependency blob, of which only the `name` key is read). -/
structure Dependency where
  name : String
deriving DecidableEq, Repr, Inhabited

/-- The `ModSpec` dataclass.  `archive` models the transient `_archive`
path attribute (empty string = unset, as in the Python constructor), and
`source` models the diagnostic `_source` back reference (a heap index). -/
structure ModSpec where
  id : String
  name : String
  version : List Int
  gameVersion : List Int
  dependencies : List Dependency
  category : ModCategories
  url : String
  files : List FileEntry
  ignore : Bool
  is_local : Bool
  is_remote : Bool
  need_update : Bool
  need_install : Bool
  need_uninstall : Bool
  archive : String
  source : Option Nat
deriving DecidableEq, Repr, Inhabited

/-- `ModSpec.__init__`: the fields a freshly constructed record gets from
positional arguments, with every flag cleared, `_archive` unset and no
`_source`. -/
def ModSpec.mk0 (id name : String) (version : List Int) (url : String)
    (files : List FileEntry) (dependencies : List Dependency)
    (category : ModCategories) (gameVersion : List Int) : ModSpec :=
  { id := id, name := name, version := version, gameVersion := gameVersion,
    dependencies := dependencies, category := category, url := url,
    files := files, ignore := false, is_local := false, is_remote := false,
    need_update := false, need_install := false, need_uninstall := false,
    archive := "", source := none }

/-! ## Version comparison

`Patcher.refreshMods` compares versions with `spec.version < rspec.version`,
i.e. Python's built-in list comparison on lists of ints: elements are
compared left to right, the first differing pair decides, and if one list
is a proper prefix of the other the shorter list is smaller. -/

/-- Python `list.__lt__` on lists of ints, as used at
`spec.version < rspec.version` in `Patcher.refreshMods`. -/
def pyListLt : List Int → List Int → Bool
  | [], [] => false
  | [], _ :: _ => true
  | _ :: _, [] => false
  | a :: as, b :: bs => if a < b then true else if b < a then false else pyListLt as bs

/-- Zero-pad a list of ints on the right to length `n`. -/
def padTo (n : Nat) (l : List Int) : List Int :=
  l ++ List.replicate (n - l.length) 0

/-- Strict comparison under the order described by the specification:
component-wise lexicographic after zero-padding the shorter sequence. -/
def zpadLt (a b : List Int) : Bool :=
  pyListLt (padTo (max a.length b.length) a) (padTo (max a.length b.length) b)

/-- Equality under the order described by the specification: the two
sequences agree after zero-padding the shorter one. -/
def zpadEq (a b : List Int) : Bool :=
  decide (padTo (max a.length b.length) a = padTo (max a.length b.length) b)

/-- The update check of `Patcher.refreshMods` (lines 472-480): for every
local record and every remote record of the same name whose version is
strictly greater under `pyListLt`, the local record is staged for update.
Returns the staged names, one per matching pair, in scan order. -/
def updateScan (localList remoteList : List ModSpec) : List String :=
  localList.foldl
    (fun acc spec =>
      acc ++ ((remoteList.filter
        (fun rspec => rspec.name == spec.name && pyListLt spec.version rspec.version)).map
          (fun _ => spec.name)))
    []

/-! ## Manifest serialization (`writeSpecFile` / `fromSpecFile`) -/

/-- The `config` block of a persisted manifest: flags stored as integers. -/
structure SpecConfig where
  ignore : Int
  is_local : Int
  is_remote : Int
  need_update : Int
  need_install : Int
  need_uninstall : Int
deriving DecidableEq, Repr, Inhabited

/-- A persisted manifest file (the JSON layout documented in the
`ModSpec` docstring). -/
structure SpecFile where
  id : String
  name : String
  version : List Int
  url : String
  config : SpecConfig
  dependencies : List Dependency
  files : List FileEntry
deriving DecidableEq, Repr, Inhabited

/-- `ModSpec.writeSpecFile`: serialize a record to manifest form, encoding
each boolean flag with Python `int(...)`. -/
def ModSpec.writeSpecFile (m : ModSpec) : SpecFile :=
  { id := m.id, name := m.name, version := m.version, url := m.url,
    config :=
      { ignore := if m.ignore then 1 else 0,
        is_local := if m.is_local then 1 else 0,
        is_remote := if m.is_remote then 1 else 0,
        need_update := if m.need_update then 1 else 0,
        need_install := if m.need_install then 1 else 0,
        need_uninstall := if m.need_uninstall then 1 else 0 },
    dependencies := m.dependencies, files := m.files }

/-- `ModSpec.fromSpecFile`: construct a record from a manifest.  The
constructor is called without `category` and `gameVersion`, so they take
their defaults (`OTHER`, `(1, 0, 0)`); the stored integer flags are then
assigned to the boolean flag fields (in Python the integers live on as
truthy values, modelled here by `≠ 0`). -/
def ModSpec.fromSpecFile (d : SpecFile) : ModSpec :=
  let obj := ModSpec.mk0 d.id d.name d.version d.url d.files d.dependencies
    ModCategories.OTHER [1, 0, 0]
  { obj with
    ignore := d.config.ignore != 0,
    is_local := d.config.is_local != 0,
    is_remote := d.config.is_remote != 0,
    need_update := d.config.need_update != 0,
    need_install := d.config.need_install != 0,
    need_uninstall := d.config.need_uninstall != 0 }

/-! ## Remote listing parsing (`fromBeatMods`) -/

/-- One platform download descriptor in a beatmods listing entry. -/
structure DownloadSpec where
  dlType : String
  url : String
  hashMd5 : List FileEntry
deriving DecidableEq, Repr, Inhabited

/-- A beatmods listing entry (the keys `fromBeatMods` reads). -/
structure BeatModsEntry where
  beatmodsId : String
  name : String
  version : String
  gameVersion : String
  category : String
  downloads : List DownloadSpec
  dependencies : List Dependency
deriving DecidableEq, Repr, Inhabited

/-- Split a character list at every occurrence of a separator, keeping
empty parts (Python `str.split` with an explicit separator). -/
def splitChars (sep : Char) : List Char → List (List Char)
  | [] => [[]]
  | c :: cs =>
    if c = sep then [] :: splitChars sep cs
    else
      match splitChars sep cs with
      | [] => [[c]]
      | p :: ps => (c :: p) :: ps

/-- Python `s.split(sep)` for a one-character separator. -/
def pySplit (sep : Char) (s : String) : List String :=
  (splitChars sep s.data).map (fun cs => String.mk cs)

/-- The value of a non-empty all-digit character sequence. -/
def digitsToNat (cs : List Char) : Option Nat :=
  if cs.length > 0 && cs.all Char.isDigit then
    some (cs.foldl (fun acc c => acc * 10 + (c.toNat - 48)) 0)
  else none

/-- Python `int(s)`: an optional sign followed by at least one digit
(whitespace and underscore forms are not used by the data at hand). -/
def parsePyInt (s : String) : Option Int :=
  match s.data with
  | '-' :: rest => (digitsToNat rest).map (fun n => -(n : Int))
  | '+' :: rest => (digitsToNat rest).map (fun n => (n : Int))
  | cs => (digitsToNat cs).map (fun n => (n : Int))

/-- `list(map(int, s.split(".")))`: parse a dot-separated version string;
fails if any component fails to parse as an int. -/
def parseDotted (s : String) : Option (List Int) :=
  (pySplit '.' s).mapM parsePyInt

/-- The category label table of `fromBeatMods`. -/
def categoryOfLabel (c : String) : ModCategories :=
  if c == "Core" then ModCategories.CORE
  else if c == "Libraries" then ModCategories.LIBRARY
  else if c == "Cosmetic" then ModCategories.COSMETIC
  else if c == "UI Enhancements" then ModCategories.UI
  else if c == "Gameplay" then ModCategories.GAMEPLAY
  else ModCategories.OTHER

/-- `ModSpec.fromBeatMods`.  The `version` parse is wrapped in
`try/except` and defaults to `[0, 0, 0]`; the `gameVersion` parse is not
wrapped, so its failure propagates out of the classmethod.  The downloads
list is turned into a dict keyed by type (later entries win); the entry
for the requested application type is picked, else the `universal` entry,
else a `RuntimeError` is raised. -/
def ModSpec.fromBeatMods (d : BeatModsEntry) (appType : String) :
    Except String ModSpec :=
  let version := (parseDotted d.version).getD [0, 0, 0]
  match parseDotted d.gameVersion with
  | none => Except.error ("invalid literal for int() in gameVersion")
  | some gameVersion =>
    let cat := categoryOfLabel d.category
    let pick := (d.downloads.reverse.find? (fun i => i.dlType == appType))
    match pick with
    | some dlSpec =>
        let obj := ModSpec.mk0 d.beatmodsId d.name version dlSpec.url
          dlSpec.hashMd5 d.dependencies cat gameVersion
        Except.ok { obj with is_remote := true }
    | none =>
      match d.downloads.reverse.find? (fun i => i.dlType == "universal") with
      | none => Except.error ("No version found for application type " ++ appType)
      | some dlSpec =>
          let obj := ModSpec.mk0 d.beatmodsId d.name version dlSpec.url
            dlSpec.hashMd5 d.dependencies cat gameVersion
          Except.ok { obj with is_remote := true }

/-! ## Archive import (`fromArchive`) -/

/-- One member of a zip archive.  `contentHash` stands for the MD5
hexdigest of the member's bytes, which is all the code ever computes from
them. -/
structure Member where
  filename : String
  isDir : Bool
  contentHash : String
deriving DecidableEq, Repr, Inhabited

/-- A zip archive as seen by `fromArchive`: its own file name, its member
list in listing (`namelist()`) order, and the outcome of the `spec.json`
probe: `none` when there is no such entry (`KeyError`), `some none` when
the entry exists but does not parse as a serialized `ModSpec` (the
subsequent `fromBeatMods` fallback always fails in the source, since it
passes the zip file object itself to `json.load`), `some (some d)` when it
parses as a manifest. -/
structure ZipArchive where
  filename : String
  members : List Member
  specJson : Option (Option SpecFile)
deriving DecidableEq, Repr, Inhabited

/-- `pathlib.Path(p).name`: the final path component. -/
def pathBasename (p : String) : String :=
  (pySplit '/' p).getLastD p

/-- `ModSpec.fromArchive`, parameterised by the digest function (standing
for `hashlib.md5(...).hexdigest()`).  When no usable `spec.json` entry
exists, a record is synthesized: the id is the digest of the member names
fed to the hash one after another in listing order (i.e. of their
concatenation); the files list records one entry per member (directories
included, as `f.open` on them yields empty content); the name is the
archive file's base name; the version is `[1, 0, 0]`; the archive path is
bound. -/
def ModSpec.fromArchive (digest : String → String) (f : ZipArchive) : ModSpec :=
  match f.specJson with
  | some (some d) => ModSpec.fromSpecFile d
  | _ =>
    let entries := f.members.map (fun m => m.filename)
    let id := digest (String.join entries)
    let hashes := f.members.map (fun m => FileEntry.mk m.filename m.contentHash)
    let modName := pathBasename f.filename
    let spec := ModSpec.mk0 id modName [1, 0, 0] ("local") hashes []
      ModCategories.OTHER [1, 0, 0]
    { spec with archive := f.filename }

/-! ## Patcher state

Python `ModSpec` objects are mutable and shared between the `Patcher`
lists; the embedding keeps the objects in a heap and lets the lists hold
heap indices, so aliasing behaves as in the source. -/

/-- The mutable state of a `Patcher`: the object heap plus the five
tracking lists (`local`, `remote`, `need_install`, `need_uninstall`,
`need_update`) holding heap indices, and the installation root path. -/
structure PState where
  heap : List ModSpec
  locals : List Nat
  remote : List Nat
  need_install : List Nat
  need_uninstall : List Nat
  need_update : List Nat
  path : String
deriving DecidableEq, Repr, Inhabited

/-- Dereference a heap index. -/
def PState.obj (st : PState) (r : Nat) : ModSpec :=
  st.heap.getD r default

/-- Overwrite the object at a heap index (attribute assignment on a
Python object). -/
def PState.setObj (st : PState) (r : Nat) (m : ModSpec) : PState :=
  { st with heap := st.heap.set r m }

/-! ## `Patcher.addMod`

The recursion of step four is made total with a fuel argument: `none`
means the allotted call depth was exhausted.  The dependency loop is
factored out as `depLoop`, which takes the recursive call (one fuel level
down) as a function argument. -/

/-- Step four of `addMod`: for each dependency name, skip it if some
local record already carries that name, otherwise recurse into the remote
record of that name (if any) with the current record as `fromSpec`;
a name absent from both catalogs is reported and skipped. -/
def depLoop (recur : PState → Nat → Option Nat → Option PState)
    (parent : Nat) : PState → List Dependency → Option PState
  | st, [] => some st
  | st, d :: rest =>
    if st.locals.any (fun r => (st.obj r).name == d.name) then
      depLoop recur parent st rest
    else
      match st.remote.find? (fun r => (st.obj r).name == d.name) with
      | some r =>
        match recur st r (some parent) with
        | none => none
        | some st2 => depLoop recur parent st2 rest
      | none => depLoop recur parent st rest

/-- Steps two and three of `addMod` (reached when no local record carries
the name): substitute the remote record of the same name if one exists
(else keep the caller's record, in local-only mode), record `_source`,
set `need_install`, and append the chosen record to both `local` and
`need_install`.  Returns the updated state and the chosen reference. -/
def addModStep3 (st : PState) (specRef : Nat) (fromSpec : Option Nat) : PState × Nat :=
  let specName := (st.obj specRef).name
  let specRef2 := (st.remote.find? (fun r => (st.obj r).name == specName)).getD specRef
  let st1 :=
    match fromSpec with
    | some f => st.setObj specRef2 { st.obj specRef2 with source := some f }
    | none => st
  let st2 := st1.setObj specRef2 { st1.obj specRef2 with need_install := true }
  ({ st2 with
      locals := st2.locals ++ [specRef2],
      need_install := st2.need_install ++ [specRef2] }, specRef2)

/-- `Patcher.addMod(spec, fromSpec)`.  Step one: if a local record already
carries the name, un-queue a pending uninstall, otherwise return with no
change.  Steps two and three: `addModStep3`.  Step four: process the
dependencies (`depLoop`). -/
def addMod : Nat → PState → Nat → Option Nat → Option PState
  | 0, _, _, _ => none
  | fuel + 1, st, specRef, fromSpec =>
    let specName := (st.obj specRef).name
    match st.locals.find? (fun r => (st.obj r).name == specName) with
    | some r =>
      let m := st.obj r
      if m.need_uninstall then
        some (({ st with need_uninstall := st.need_uninstall.erase r } : PState).setObj
          r { m with need_uninstall := false })
      else
        some st
    | none =>
      let s3 := addModStep3 st specRef fromSpec
      depLoop (fun s q p => addMod fuel s q p) s3.2 s3.1 ((s3.1.obj s3.2).dependencies)

/-! ## `Patcher.removeMod` -/

/-- The outcome of `removeMod`: a returned boolean, the
dependency-conflict `RuntimeError` (carrying the dependent names listed in
the message), or the `ValueError` of `list.remove` on a missing element. -/
inductive RmOutcome where
  | ok (b : Bool)
  | conflictErr (deps : List String)
  | valueErr
deriving DecidableEq, Repr, Inhabited

/-- Step two of `removeMod`: scan every local record's dependency list for
the target name, collecting one entry of the record's name per matching
dependency, in scan order. -/
def dependentsScan (st : PState) (specName : String) : List String :=
  st.locals.flatMap (fun r =>
    ((st.obj r).dependencies.filter (fun dep => dep.name == specName)).map
      (fun _ => (st.obj r).name))

/-- `Patcher.removeMod(spec, force)`.  A record still queued for install
is simply unstaged; a record that is not local at all yields `False`;
otherwise the dependents scan either raises the conflict `RuntimeError`
(unless `force`) or the record is removed from the update queue, its
flags are rewritten and it is appended to the uninstall queue. -/
def removeMod (st : PState) (specRef : Nat) (force : Bool) : PState × RmOutcome :=
  let spec := st.obj specRef
  if spec.need_install then
    if st.need_install.contains specRef then
      let st1 := { st with need_install := st.need_install.erase specRef }
      let st2 := st1.setObj specRef { st1.obj specRef with need_install := false }
      if st2.locals.contains specRef then
        ({ st2 with locals := st2.locals.erase specRef }, RmOutcome.ok true)
      else (st2, RmOutcome.valueErr)
    else (st, RmOutcome.valueErr)
  else if !spec.is_local then
    (st, RmOutcome.ok false)
  else
    let deps := dependentsScan st spec.name
    if deps != [] && !force then
      (st, RmOutcome.conflictErr deps)
    else
      let st1 :=
        if st.need_update.contains specRef then
          { st with need_update := st.need_update.erase specRef }
        else st
      let st2 := st1.setObj specRef
        { st1.obj specRef with
          need_uninstall := true, need_install := false, need_update := false }
      ({ st2 with need_uninstall := st2.need_uninstall ++ [specRef] },
        RmOutcome.ok true)

/-! ## The patch pipeline

External effects are captured by an environment (`Env`) and an event
trace.  A downloaded payload (`Blob`) either opens as a zip archive or
does not (`zipfile` raising on open); `Env.fetch` returns `none` exactly
when `urllib` raises a network error for the URL; `Env.fs` holds
pre-existing files (e.g. archives bound by `fromArchive`).  Files written
to the download cache during phase three are kept in an overlay list. -/

/-- A downloaded payload: `zip = none` models a file `zipfile.ZipFile`
refuses to open. -/
structure Blob where
  zip : Option (List Member)
deriving DecidableEq, Repr, Inhabited

/-- The external world of one `patch` run. -/
structure Env where
  fetch : String → Option Blob
  fs : String → Option Blob

/-- The download-cache overlay: paths written during phase three, most
recent first. -/
abbrev Cache := List (String × Blob)

/-- Look a path up in the cache overlay, then in the pre-existing files. -/
def readFile (env : Env) (cache : Cache) (p : String) : Option Blob :=
  match cache.find? (fun kv => kv.1 == p) with
  | some kv => some kv.2
  | none => env.fs p

/-- Observable actions of a `patch` run, in execution order. -/
inductive Event where
  | removedFile (path : String)
  | manifestRemoved (name : String)
  | uninstallFailed (name : String)
  | substFailed (name : String)
  | skippedDownload (name : String)
  | downloaded (name : String)
  | downloadFailed (name : String)
  | extracted (name : String) (cat : ModCategories) (path : String)
  | manifestWritten (name : String) (cat : ModCategories)
  | installFailed (name : String) (cat : ModCategories)
  | cacheRemoved (path : String)
deriving DecidableEq, Repr, Inhabited

/-- The category tag of an install-phase event (`extracted`,
`manifestWritten`, `installFailed`); `none` for all other events. -/
def installCat : Event → Option ModCategories
  | Event.extracted _ cat _ => some cat
  | Event.manifestWritten _ cat => some cat
  | Event.installFailed _ cat => some cat
  | _ => none

/-- `"_".join(map(str, version))` with dots: the version part of
`_getArchiveName` / `_getSpecFileName`. -/
def versionString (v : List Int) : String :=
  String.intercalate (".") (v.map toString)

/-- `Patcher._getArchiveName`. -/
def getArchiveName (spec : ModSpec) : String :=
  spec.name ++ ("_") ++ versionString spec.version ++ (".zip")

/-- `Patcher._getSpecFileName`. -/
def getSpecFileName (spec : ModSpec) : String :=
  spec.name ++ ("_") ++ versionString spec.version ++ (".json")

/-- The download-cache path of a record's archive. -/
def cachePath (st : PState) (spec : ModSpec) : String :=
  st.path ++ ("/.bsmm/cache/") ++ getArchiveName spec

/-- Lower-case a string character by character (Python `str.lower` on
the hexadecimal digests at hand). -/
def strLower (s : String) : String :=
  String.mk (s.data.map Char.toLower)

/-- `validateFile(data, hash)` compares MD5 hexdigests case-insensitively;
the model carries the digest of the member bytes directly. -/
def validateFile (contentHash expected : String) : Bool :=
  strLower contentHash == strLower expected

/-- The member loop of `_verifyArchive`: directories are skipped; a member
without a recorded hash is only warned about; the first member whose
digest does not validate raises `RuntimeError` (`Except.error`). -/
def checkMembers (files : List FileEntry) : List Member → Except String Bool
  | [] => Except.ok true
  | m :: rest =>
    if m.isDir then checkMembers files rest
    else
      match (files.reverse.find? (fun fe => fe.file == m.filename)).map
          (fun fe => fe.hash) with
      | none => checkMembers files rest
      | some h =>
        if validateFile m.contentHash h then checkMembers files rest
        else Except.error m.filename

/-- `Patcher._verifyArchive(spec, path)`: an archive that cannot be opened
is logged and reported by returning `False` (no exception); otherwise the
member loop runs (the per-file hash lookup dict is built from
`spec.files`, later duplicates winning). -/
def verifyArchive (env : Env) (cache : Cache) (spec : ModSpec) (p : String) :
    Except String Bool :=
  match (readFile env cache p).bind (fun b => b.zip) with
  | none => Except.ok false
  | some members => checkMembers spec.files members

/-- The result of `_downloadMod` as observed by `patch`: `ok` covers both
a verified download and an unopenable one, because `_downloadMod` ignores
the boolean returned by `_verifyArchive`; only exceptions (network
failure, MD5 mismatch) escape. -/
inductive DlOutcome where
  | ok
  | netError
  | md5Error (file : String)
deriving DecidableEq, Repr, Inhabited

/-- `Patcher._downloadMod(spec)`: fetch the archive, write it to the
download cache, bind `spec._archive`, then run `_verifyArchive` — whose
return value is discarded, exactly as in the source. -/
def downloadStep (env : Env) (st : PState) (cache : Cache) (r : Nat) :
    PState × Cache × DlOutcome :=
  let spec := st.obj r
  match env.fetch spec.url with
  | none => (st, cache, DlOutcome.netError)
  | some blob =>
    let p := cachePath st spec
    let cache1 := (p, blob) :: cache
    let st1 := st.setObj r { spec with archive := p }
    match verifyArchive env cache1 (st1.obj r) p with
    | Except.ok _ => (st1, cache1, DlOutcome.ok)
    | Except.error f => (st1, cache1, DlOutcome.md5Error f)

/-- Phase one helper, `Patcher._uninstallMod(spec)`: a record that is not
local raises (caught by `patch` as `uninstallFailed`); otherwise every
listed file is removed best-effort and the manifest file is deleted.  No
tracker list and no object is mutated. -/
def uninstallEvents (st : PState) (r : Nat) : List Event :=
  let spec := st.obj r
  if !spec.is_local then [Event.uninstallFailed spec.name]
  else
    (spec.files.map (fun fe => Event.removedFile (st.path ++ ("/") ++ fe.file)))
      ++ [Event.manifestRemoved (getSpecFileName spec)]

/-- Phase three of `patch`: iterate over a snapshot of the install list;
records with a bound archive are skipped; a download whose exception
escapes (`netError`, `md5Error`) removes the record from the live install
list, any other record proceeds. -/
def phase3 (env : Env) : PState → Cache → List Nat → List Nat →
    PState × Cache × List Nat × List Event
  | st, cache, cur, [] => (st, cache, cur, [])
  | st, cache, cur, r :: rest =>
    let spec := st.obj r
    if spec.archive != "" then
      let p := phase3 env st cache cur rest
      (p.1, p.2.1, p.2.2.1, Event.skippedDownload spec.name :: p.2.2.2)
    else
      let d := downloadStep env st cache r
      match d.2.2 with
      | DlOutcome.ok =>
        let p := phase3 env d.1 d.2.1 cur rest
        (p.1, p.2.1, p.2.2.1, Event.downloaded spec.name :: p.2.2.2)
      | _ =>
        let p := phase3 env d.1 d.2.1 (cur.erase r) rest
        (p.1, p.2.1, p.2.2.1, Event.downloadFailed spec.name :: p.2.2.2)

/-- `Patcher._installMod(spec)`: locate the archive (the bound path or the
download cache), extract every non-directory member to the target root,
then rewrite the flags and persist the manifest.  A missing or unopenable
archive raises (caught by `patch` as `installFailed`). -/
def installStep (env : Env) (st : PState) (cache : Cache) (r : Nat) :
    PState × List Event :=
  let spec := st.obj r
  let p1 := if spec.archive != "" then spec.archive else cachePath st spec
  match (readFile env cache p1).bind (fun b => b.zip) with
  | none => (st, [Event.installFailed spec.name spec.category])
  | some members =>
    let evs := (members.filter (fun m => !m.isDir)).map
      (fun m => Event.extracted spec.name spec.category (st.path ++ ("/") ++ m.filename))
    let st1 := st.setObj r
      { spec with is_remote := false, is_local := true, need_install := false }
    (st1, evs ++ [Event.manifestWritten spec.name spec.category])

/-- Phase four helper: install each record of a list in order,
accumulating state and events. -/
def installAll (env : Env) (cache : Cache) : PState → List Nat → PState × List Event
  | st, [] => (st, [])
  | st, r :: rest =>
    let s1 := installStep env st cache r
    let s2 := installAll env cache s1.1 rest
    (s2.1, s1.2 ++ s2.2)

/-- `Patcher.patch()`: the five phases in order.  Phase one uninstalls
`need_uninstall ++ need_update`; phase two substitutes remote records for
queued updates and appends the plain install queue; phase three downloads
and verifies; phase four installs Core records first and everything else
second; phase five purges the download cache.  The tracker lists
themselves are never modified. -/
def patch (env : Env) (st : PState) : PState × List Event :=
  let uninstall := st.need_uninstall ++ st.need_update
  let ev1 := uninstall.flatMap (fun r => uninstallEvents st r)
  let sub := st.need_update.foldl
    (fun acc r =>
      match st.remote.find? (fun q => (st.obj q).name == (st.obj r).name) with
      | some q => (acc.1 ++ [q], acc.2)
      | none => (acc.1, acc.2 ++ [Event.substFailed (st.obj r).name]))
    (([] : List Nat), ([] : List Event))
  let install1 := sub.1 ++ st.need_install
  let p3 := phase3 env st [] install1 install1
  let st3 := p3.1
  let cache3 := p3.2.1
  let install2 := p3.2.2.1
  let ev3 := p3.2.2.2
  let core := install2.filter (fun r => (st3.obj r).category == ModCategories.CORE)
  let generic := install2.filter (fun r => !((st3.obj r).category == ModCategories.CORE))
  let p4a := installAll env cache3 st3 core
  let p4b := installAll env cache3 p4a.1 generic
  let ev5 := cache3.map (fun kv => Event.cacheRemoved kv.1)
  (p4b.1, ev1 ++ sub.2 ++ ev3 ++ p4a.2 ++ p4b.2 ++ ev5)

/-! ## Facts about the version order (claim C6) -/

theorem padTo_self (l : List Int) : padTo l.length l = l := by
  simp [padTo]

theorem padTo_nil (n : Nat) : padTo n [] = List.replicate n 0 := by
  simp [padTo]

theorem padTo_cons (n : Nat) (x : Int) (l : List Int) :
    padTo (n + 1) (x :: l) = x :: padTo n l := by
  simp [padTo, Nat.succ_sub_succ]

theorem pyListLt_zero_left (b : List Int) (hb : ∀ x ∈ b, 0 ≤ x) :
    pyListLt (List.replicate b.length 0) b = !(b.all (fun x => x == 0)) := by
  induction b with
  | nil => simp [pyListLt]
  | cons y bs ih =>
    have hy : 0 ≤ y := hb y (by simp)
    have hbs : ∀ x ∈ bs, 0 ≤ x := fun x hx => hb x (by simp [hx])
    rcases lt_or_eq_of_le hy with h | h
    · simp [pyListLt, List.replicate_succ, h, ne_of_gt h]
    · simp [pyListLt, List.replicate_succ, ← h, ih hbs]

theorem pyListLt_zero_right (a : List Int) (ha : ∀ x ∈ a, 0 ≤ x) :
    pyListLt a (List.replicate a.length 0) = false := by
  induction a with
  | nil => simp [pyListLt]
  | cons x as ih =>
    have hx : 0 ≤ x := ha x (by simp)
    have has : ∀ y ∈ as, 0 ≤ y := fun y hy => ha y (by simp [hy])
    rcases lt_or_eq_of_le hx with h | h
    · simp [pyListLt, List.replicate_succ, h, not_lt_of_gt h, ih has]
    · simp [pyListLt, List.replicate_succ, ← h, ih has]

theorem replicate_zero_eq_iff (b : List Int) :
    (List.replicate b.length 0 = b) ↔ (∀ x ∈ b, x = 0) := by
  constructor
  · intro h x hx
    have := List.eq_replicate_iff.mp h.symm
    exact this.2 x hx
  · intro h
    exact (List.eq_replicate_iff.mpr ⟨rfl, h⟩).symm

theorem replicate_decide (b : List Int) :
    decide (List.replicate b.length 0 = b) = b.all (fun x => x == 0) := by
  rw [Bool.eq_iff_iff]
  simp only [decide_eq_true_eq, List.all_eq_true, beq_iff_eq]
  exact replicate_zero_eq_iff b

theorem pyListLt_eq_zpad (a b : List Int) (ha : ∀ x ∈ a, 0 ≤ x) (hb : ∀ x ∈ b, 0 ≤ x) :
    pyListLt a b = (zpadLt a b || (zpadEq a b && decide (a.length < b.length))) := by
  induction a generalizing b with
  | nil =>
    cases b with
    | nil => decide
    | cons y bs =>
      have h0 : max (List.length ([] : List Int)) (y :: bs).length = (y :: bs).length := by
        simp
      rw [zpadLt, zpadEq, h0, padTo_nil, padTo_self]
      rw [pyListLt_zero_left _ hb, replicate_decide]
      have h1 : decide (List.length ([] : List Int) < (y :: bs).length) = true := by
        simp
      rw [h1, Bool.and_true, Bool.not_or_self]
      simp [pyListLt]
  | cons x as ih =>
    cases b with
    | nil =>
      have h0 : max (x :: as).length (List.length ([] : List Int)) = (x :: as).length := by
        simp
      rw [zpadLt, zpadEq, h0, padTo_nil, padTo_self]
      rw [pyListLt_zero_right _ ha]
      simp [pyListLt]
    | cons y bs =>
      have has : ∀ u ∈ as, 0 ≤ u := fun u hu => ha u (by simp [hu])
      have hbs : ∀ u ∈ bs, 0 ≤ u := fun u hu => hb u (by simp [hu])
      have hmax : max (x :: as).length (y :: bs).length = max as.length bs.length + 1 := by
        simp [Nat.succ_max_succ]
      rw [zpadLt, zpadEq, hmax, padTo_cons, padTo_cons]
      rcases lt_trichotomy x y with h | h | h
      · simp [pyListLt, h]
      · subst h
        have h2 : pyListLt (x :: padTo (max as.length bs.length) as)
            (x :: padTo (max as.length bs.length) bs)
            = pyListLt (padTo (max as.length bs.length) as)
              (padTo (max as.length bs.length) bs) := by
          simp [pyListLt]
        have h3 : decide (x :: padTo (max as.length bs.length) as =
            x :: padTo (max as.length bs.length) bs)
            = decide (padTo (max as.length bs.length) as =
              padTo (max as.length bs.length) bs) := by
          simp
        have h4 : decide ((x :: as).length < (x :: bs).length)
            = decide (as.length < bs.length) := by
          simp
        have h5 : pyListLt (x :: as) (x :: bs) = pyListLt as bs := by
          simp [pyListLt]
        rw [h2, h3, h4, h5, ih bs has hbs, zpadLt, zpadEq]
      · simp [pyListLt, h, not_lt_of_gt h, ne_of_gt h]

/-- A local record of name `X` at version `[1, 2]`. -/
def xLocal : ModSpec :=
  ModSpec.mk0 "x1" "X" [1, 2] "u" [] [] ModCategories.OTHER [1]

/-- A remote record of name `X` at version `[1, 2, 0]`. -/
def xRemote : ModSpec :=
  { ModSpec.mk0 "x2" "X" [1, 2, 0] "u" [] [] ModCategories.OTHER [1] with
    is_remote := true }

/-- Claim C6, counterexample: the comparison the system uses does not
agree with component-wise order after zero-padding.  `[1, 2]` and
`[1, 2, 0]` are equal after zero-padding (`zpadEq`), yet Python list
comparison — and hence the update check of `refreshMods` — treats
`[1, 2]` as strictly smaller and stages an update for a record whose
remote version is the local version extended with a trailing zero. -/
theorem pyListLt_zpad_counterexample :
    pyListLt [1, 2] [1, 2, 0] = true ∧ zpadEq [1, 2] [1, 2, 0] = true ∧
    zpadLt [1, 2] [1, 2, 0] = false ∧ updateScan [xLocal] [xRemote] = ["X"] := by
  decide

/-- Claim C6, amended: the version comparison used by `refreshMods` is
Python list order — component-wise lexicographic, with a sequence that is
a strict prefix of the other (up to zero-padding) comparing strictly
smaller rather than equal.  It agrees with zero-padded lexicographic
order exactly up to that tie-break on length, and the claim's concrete
instances `[1,2] < [1,2,1]` and `[1,9] < [1,10]` hold. -/
theorem pyListLt_zpad_agreement :
    (∀ a b : List Int, (∀ x ∈ a, 0 ≤ x) → (∀ x ∈ b, 0 ≤ x) →
      pyListLt a b = (zpadLt a b || (zpadEq a b && decide (a.length < b.length))))
    ∧ pyListLt [1, 2] [1, 2, 1] = true ∧ pyListLt [1, 9] [1, 10] = true := by
  refine ⟨fun a b ha hb => pyListLt_eq_zpad a b ha hb, by decide, by decide⟩

/-- Witness for `pyListLt_zpad_agreement` at `[1, 2]` and `[1, 2, 0]`. -/
theorem pyListLt_zpad_agreement_witness :
    pyListLt [1, 2] [1, 2, 0]
      = (zpadLt [1, 2] [1, 2, 0] ||
          (zpadEq [1, 2] [1, 2, 0] &&
            decide (List.length [1, 2] < List.length ([1, 2, 0] : List Int)))) :=
  pyListLt_zpad_agreement.1 [1, 2] [1, 2, 0] (by decide) (by decide)

/-! ## Claim C7: manifest round trip -/

theorem flag_roundtrip (b : Bool) : ((if b then (1 : Int) else 0) != 0) = b := by
  cases b <;> decide

/-- Claim C7: serializing a record with `writeSpecFile` and parsing the
result back with `fromSpecFile` restores the name, version, all six
flags, the files list and the dependency list (and the id and url),
through the boolean-to-integer flag encoding.  (The category and the
target-app version are not part of the manifest format and are not
claimed.) -/
theorem writeSpecFile_fromSpecFile_roundtrip (m : ModSpec) :
    (ModSpec.fromSpecFile m.writeSpecFile).name = m.name
    ∧ (ModSpec.fromSpecFile m.writeSpecFile).version = m.version
    ∧ (ModSpec.fromSpecFile m.writeSpecFile).ignore = m.ignore
    ∧ (ModSpec.fromSpecFile m.writeSpecFile).is_local = m.is_local
    ∧ (ModSpec.fromSpecFile m.writeSpecFile).is_remote = m.is_remote
    ∧ (ModSpec.fromSpecFile m.writeSpecFile).need_update = m.need_update
    ∧ (ModSpec.fromSpecFile m.writeSpecFile).need_install = m.need_install
    ∧ (ModSpec.fromSpecFile m.writeSpecFile).need_uninstall = m.need_uninstall
    ∧ (ModSpec.fromSpecFile m.writeSpecFile).files = m.files
    ∧ (ModSpec.fromSpecFile m.writeSpecFile).dependencies = m.dependencies
    ∧ (ModSpec.fromSpecFile m.writeSpecFile).id = m.id
    ∧ (ModSpec.fromSpecFile m.writeSpecFile).url = m.url := by
  refine ⟨?_, ?_, ?_, ?_, ?_, ?_, ?_, ?_, ?_, ?_, ?_, ?_⟩ <;>
    simp [ModSpec.fromSpecFile, ModSpec.writeSpecFile, ModSpec.mk0, flag_roundtrip]

/-! ## Claim C8: remote listing parse failures -/

/-- A listing entry whose `gameVersion` string does not parse as
dot-separated integers. -/
def badGameVersionEntry : BeatModsEntry :=
  { beatmodsId := "1", name := "M", version := "1.0.0", gameVersion := "oops",
    category := "Core", downloads := [DownloadSpec.mk "steam" "u" []],
    dependencies := [] }

/-- Claim C8, counterexample: a `gameVersion` string that fails to parse
is fatal to `fromBeatMods` — the record is not constructed with a
`[0, 0, 0]` default, construction aborts. -/
theorem fromBeatMods_gameVersion_fatal :
    ModSpec.fromBeatMods badGameVersionEntry "steam"
      = Except.error "invalid literal for int() in gameVersion" := by
  rfl

/-- Claim C8, amended: only the `version` parse is guarded — its failure
defaults the field to `[0, 0, 0]` and construction continues — while a
`gameVersion` (target-app-version) parse failure propagates out of
`fromBeatMods`. -/
theorem fromBeatMods_version_default (d : BeatModsEntry) (t : String) :
    (parseDotted d.gameVersion = none →
      ∃ msg, ModSpec.fromBeatMods d t = Except.error msg)
    ∧ (∀ m, ModSpec.fromBeatMods d t = Except.ok m →
        m.version = (parseDotted d.version).getD [0, 0, 0]) := by
  constructor
  · intro h
    exact ⟨"invalid literal for int() in gameVersion", by
      simp [ModSpec.fromBeatMods, h]⟩
  · intro m hm
    unfold ModSpec.fromBeatMods at hm
    cases hg : parseDotted d.gameVersion with
    | none => simp [hg] at hm
    | some gv =>
      rw [hg] at hm
      simp only [] at hm
      cases hp : d.downloads.reverse.find? (fun i => i.dlType == t) with
      | some dl =>
        rw [hp] at hm
        simp only [Except.ok.injEq] at hm
        subst hm
        rfl
      | none =>
        rw [hp] at hm
        cases hu : d.downloads.reverse.find? (fun i => i.dlType == "universal") with
        | none => rw [hu] at hm; exact absurd hm (by simp)
        | some dl =>
          rw [hu] at hm
          simp only [Except.ok.injEq] at hm
          subst hm
          rfl

/-- A listing entry whose `version` string does not parse, with a valid
`gameVersion`. -/
def badVersionEntry : BeatModsEntry :=
  { beatmodsId := "2", name := "N", version := "x", gameVersion := "1.0",
    category := "Gameplay", downloads := [DownloadSpec.mk "steam" "v" []],
    dependencies := [] }

/-- Witness for `fromBeatMods_version_default`: the fatal branch at
`badGameVersionEntry` and the defaulting branch at `badVersionEntry`. -/
theorem fromBeatMods_version_default_witness :
    (∃ msg, ModSpec.fromBeatMods badGameVersionEntry "steam" = Except.error msg)
    ∧ ({ ModSpec.mk0 "2" "N" [0, 0, 0] "v" [] [] ModCategories.GAMEPLAY [1, 0] with
          is_remote := true } : ModSpec).version
        = (parseDotted badVersionEntry.version).getD [0, 0, 0] :=
  ⟨(fromBeatMods_version_default badGameVersionEntry "steam").1 (by rfl),
   (fromBeatMods_version_default badVersionEntry "steam").2 _ (by rfl)⟩

/-! ## Claim C9: synthesized archive identity -/

/-- Archive member `a.dll`. -/
def memA9 : Member := { filename := "a.dll", isDir := false, contentHash := "h1" }

/-- Archive member `b.dll`. -/
def memB9 : Member := { filename := "b.dll", isDir := false, contentHash := "h2" }

/-- An archive without a `spec.json` entry listing `b.dll` before `a.dll`. -/
def archBA : ZipArchive :=
  { filename := "p/m.zip", members := [memB9, memA9], specJson := none }

/-- The same archive contents listed in the opposite order. -/
def archAB : ZipArchive :=
  { filename := "p/m.zip", members := [memA9, memB9], specJson := none }

/-- Claim C9, counterexample: two spec-less archives with the same set of
member names but different listing order feed different byte sequences to
the id hash, because `fromArchive` hashes the names in `namelist()` order
without sorting them.  The digest function is a parameter of the model
(standing for MD5); with any injective digest — here the identity
function on the hash input — the two ids differ even though the sorted
member-name lists coincide. -/
theorem fromArchive_id_order_sensitive :
    (archBA.members.map (fun m => m.filename)).Perm
      (archAB.members.map (fun m => m.filename))
    ∧ (ModSpec.fromArchive (fun s => s) archBA).id
        ≠ (ModSpec.fromArchive (fun s => s) archAB).id := by
  constructor
  · decide
  · decide

/-- Claim C9, amended: for every archive without a usable `spec.json`
entry, the synthesized id is the digest of the member names concatenated
in listing order (not sorted), so two archives agree on the id exactly
when the hash input built from their member-name sequences agrees. -/
theorem fromArchive_id_listing_order (digest : String → String) (f : ZipArchive)
    (h : f.specJson = none ∨ f.specJson = some none) :
    (ModSpec.fromArchive digest f).id
      = digest (String.join (f.members.map (fun m => m.filename))) := by
  rcases h with h | h <;> rw [ModSpec.fromArchive, h]
  · rfl
  · rfl

/-- Witness for `fromArchive_id_listing_order` at `archBA` with the
identity digest. -/
theorem fromArchive_id_listing_order_witness :
    (ModSpec.fromArchive (fun s => s) archBA).id
      = (fun s => s) (String.join (archBA.members.map (fun m => m.filename))) :=
  fromArchive_id_listing_order (fun s => s) archBA (Or.inl rfl)

/-! ## Claim C10: `patch` never touches the queued-operation lists -/

/-- The three queued-operation lists of two states agree. -/
def queuesEq (a b : PState) : Prop :=
  a.need_install = b.need_install ∧ a.need_uninstall = b.need_uninstall
    ∧ a.need_update = b.need_update

theorem queuesEq_refl (a : PState) : queuesEq a a := ⟨rfl, rfl, rfl⟩

theorem queuesEq_trans {a b c : PState} (h1 : queuesEq a b) (h2 : queuesEq b c) :
    queuesEq a c :=
  ⟨h1.1.trans h2.1, h1.2.1.trans h2.2.1, h1.2.2.trans h2.2.2⟩

theorem setObj_queuesEq (st : PState) (r : Nat) (m : ModSpec) :
    queuesEq (st.setObj r m) st := ⟨rfl, rfl, rfl⟩

theorem downloadStep_queuesEq (env : Env) (st : PState) (cache : Cache) (r : Nat) :
    queuesEq (downloadStep env st cache r).1 st := by
  unfold downloadStep
  dsimp only
  split
  · exact queuesEq_refl st
  · split
    · exact setObj_queuesEq st r _
    · exact setObj_queuesEq st r _

theorem installStep_queuesEq (env : Env) (st : PState) (cache : Cache) (r : Nat) :
    queuesEq (installStep env st cache r).1 st := by
  unfold installStep
  dsimp only
  split
  · exact queuesEq_refl st
  · exact setObj_queuesEq st r _

theorem phase3_queuesEq (env : Env) :
    ∀ (iter : List Nat) (st : PState) (cache : Cache) (cur : List Nat),
      queuesEq (phase3 env st cache cur iter).1 st := by
  intro iter
  induction iter with
  | nil => intro st cache cur; exact queuesEq_refl st
  | cons r rest ih =>
    intro st cache cur
    unfold phase3
    dsimp only
    split
    · exact ih st cache cur
    · split
      · exact queuesEq_trans (ih _ _ cur) (downloadStep_queuesEq env st cache r)
      · exact queuesEq_trans (ih _ _ _) (downloadStep_queuesEq env st cache r)

theorem installAll_queuesEq (env : Env) (cache : Cache) :
    ∀ (refs : List Nat) (st : PState), queuesEq (installAll env cache st refs).1 st := by
  intro refs
  induction refs with
  | nil => intro st; exact queuesEq_refl st
  | cons r rest ih =>
    intro st
    exact queuesEq_trans (ih _) (installStep_queuesEq env st cache r)

/-- Claim C10: `patch()` never adds to or removes from the three
queued-operation lists: it works on private copies, so after it returns,
`need_install`, `need_uninstall` and `need_update` hold exactly the
records they held before the call, in the same order — whatever the
environment did (successful installs and uninstalls included). -/
theorem patch_queues (env : Env) (st : PState) :
    (patch env st).1.need_install = st.need_install
    ∧ (patch env st).1.need_uninstall = st.need_uninstall
    ∧ (patch env st).1.need_update = st.need_update := by
  have h : queuesEq (patch env st).1 st := by
    unfold patch
    exact queuesEq_trans (installAll_queuesEq env _ _ _)
      (queuesEq_trans (installAll_queuesEq env _ _ _) (phase3_queuesEq env _ st _ _))
  exact h

/-! ## Claim C5: `removeMod` dependency protection -/

theorem dependentsScan_mem (st : PState) (sn : String) (r : Nat)
    (hr : r ∈ st.locals) (d : Dependency) (hd : d ∈ (st.obj r).dependencies)
    (hname : d.name = sn) :
    (st.obj r).name ∈ dependentsScan st sn := by
  unfold dependentsScan
  rw [List.mem_flatMap]
  refine ⟨r, hr, ?_⟩
  rw [List.mem_map]
  refine ⟨d, ?_, rfl⟩
  rw [List.mem_filter]
  exact ⟨hd, by rw [beq_iff_eq]; exact hname⟩

/-- Claim C5: for an installed record (local, not merely queued for
install) whose name appears in the dependency list of some other local
record, `removeMod` without `force` raises the dependency-conflict error
whose message names every dependent found by the scan (the dependent's
name among them) and leaves the state unchanged; with `force` it always
succeeds — the record is removed from the update queue if present, its
`need_update` and `need_install` flags are cleared, `need_uninstall` is
set, and it is appended to the uninstall queue. -/
theorem removeMod_spec (st : PState) (specRef : Nat)
    (hni : (st.obj specRef).need_install = false)
    (hl : (st.obj specRef).is_local = true) :
    (∀ r, r ∈ st.locals → r ≠ specRef →
      (∃ d ∈ (st.obj r).dependencies, d.name = (st.obj specRef).name) →
      removeMod st specRef false
        = (st, RmOutcome.conflictErr (dependentsScan st (st.obj specRef).name))
      ∧ (st.obj r).name ∈ dependentsScan st (st.obj specRef).name)
    ∧ removeMod st specRef true
        = ({ st with
              heap := st.heap.set specRef
                { st.obj specRef with
                  need_uninstall := true, need_install := false, need_update := false },
              need_update := st.need_update.erase specRef,
              need_uninstall := st.need_uninstall ++ [specRef] }, RmOutcome.ok true) := by
  constructor
  · intro r hr hne hdep
    obtain ⟨d, hd, hdn⟩ := hdep
    have hmem : (st.obj r).name ∈ dependentsScan st (st.obj specRef).name :=
      dependentsScan_mem st _ r hr d hd hdn
    have hnil : dependentsScan st (st.obj specRef).name ≠ [] :=
      List.ne_nil_of_mem hmem
    have hcond : (dependentsScan st (st.obj specRef).name != [] && !false) = true := by
      simp [bne_iff_ne, hnil]
    refine ⟨?_, hmem⟩
    simp only [removeMod, hni, hl, Bool.false_eq_true, if_false, Bool.not_true, hcond, if_true]
  · have hcond : (dependentsScan st (st.obj specRef).name != [] && false) = false := by
      simp
    simp only [removeMod, hni, hl, Bool.false_eq_true, if_false, Bool.not_true, hcond]
    have hl3 : (st.heap[specRef]?.getD default).is_local = true := by
      simpa [PState.obj, List.getD] using hl
    by_cases hmem : specRef ∈ st.need_update
    · simp [hmem, PState.setObj, PState.obj, hl3]
    · have herase : st.need_update.erase specRef = st.need_update :=
        List.erase_of_not_mem hmem
      simp [hmem, PState.setObj, PState.obj, herase, hl3]

/-- An installed library record `Lib`. -/
def rmLib : ModSpec :=
  { ModSpec.mk0 "l1" "Lib" [1] "ul" [] [] ModCategories.LIBRARY [1] with
    is_local := true }

/-- An installed record `App` depending on `Lib`. -/
def rmApp : ModSpec :=
  { ModSpec.mk0 "a1" "App" [1] "ua" [] [Dependency.mk "Lib"] ModCategories.OTHER [1] with
    is_local := true }

/-- A local catalog holding `Lib` and its dependent `App`. -/
def rmSt : PState :=
  { heap := [rmLib, rmApp], locals := [0, 1], remote := [],
    need_install := [], need_uninstall := [], need_update := [], path := "root" }

/-- Witness for `removeMod_spec`: removing `Lib` without force fails with
the conflict naming `App`; with force it succeeds. -/
theorem removeMod_spec_witness :
    removeMod rmSt 0 false = (rmSt, RmOutcome.conflictErr ["App"])
    ∧ (removeMod rmSt 0 true).2 = RmOutcome.ok true := by
  have h := removeMod_spec rmSt 0 (by decide) (by decide)
  have h1 := h.1 1 (by decide) (by decide) ⟨Dependency.mk "Lib", by decide, by decide⟩
  constructor
  · rw [h1.1]
    decide
  · rw [h.2]

/-! ## Claim C2: Core records install before all others -/

theorem getD_set {α : Type} (l : List α) (i j : Nat) (a d : α) :
    (l.set i a).getD j d = if i = j ∧ i < l.length then a else l.getD j d := by
  simp only [List.getD_eq_getElem?_getD, List.getElem?_set]
  by_cases h : i = j
  · subst h
    by_cases h2 : i < l.length <;> simp [h2]
    rw [List.getElem?_eq_none (by omega)]
    rfl
  · simp [h]

theorem obj_setObj (st : PState) (r q : Nat) (m : ModSpec) :
    (st.setObj r m).obj q = if r = q ∧ r < st.heap.length then m else st.obj q := by
  unfold PState.setObj PState.obj
  exact getD_set st.heap r q m default

theorem installStep_cat_stable (env : Env) (st : PState) (cache : Cache) (r q : Nat) :
    ((installStep env st cache r).1.obj q).category = ((st.obj q)).category := by
  unfold installStep
  dsimp only
  split
  · rfl
  · rw [obj_setObj]
    split
    · rename_i h
      rw [← h.1]
    · rfl

theorem installAll_cat_stable (env : Env) (cache : Cache) :
    ∀ (refs : List Nat) (st : PState) (q : Nat),
      ((installAll env cache st refs).1.obj q).category = (st.obj q).category := by
  intro refs
  induction refs with
  | nil => intro st q; rfl
  | cons r rest ih =>
    intro st q
    unfold installAll
    dsimp only
    rw [ih, installStep_cat_stable]

theorem installStep_events_cat (env : Env) (st : PState) (cache : Cache) (r : Nat) :
    ∀ e ∈ (installStep env st cache r).2, installCat e = some (st.obj r).category := by
  unfold installStep
  dsimp only
  split
  · intro e he
    simp only [List.mem_singleton] at he
    subst he
    rfl
  · intro e he
    rcases List.mem_append.mp he with h | h
    · obtain ⟨m, _, hm⟩ := List.mem_map.mp h
      subst hm
      rfl
    · simp only [List.mem_singleton] at h
      subst h
      rfl

theorem installAll_events_cat (env : Env) (cache : Cache) (c : ModCategories) :
    ∀ (refs : List Nat) (st : PState),
      (∀ r ∈ refs, (st.obj r).category = c) →
      ∀ e ∈ (installAll env cache st refs).2, installCat e = some c := by
  intro refs
  induction refs with
  | nil => intro st _ e he; simp [installAll] at he
  | cons r rest ih =>
    intro st hcat e he
    unfold installAll at he
    dsimp only at he
    rcases List.mem_append.mp he with h | h
    · rw [installStep_events_cat env st cache r e h, hcat r (by simp)]
    · refine ih (installStep env st cache r).1 ?_ e h
      intro r' hr'
      rw [installStep_cat_stable]
      exact hcat r' (by simp [hr'])

theorem uninstallEvents_cat (st : PState) (r : Nat) :
    ∀ e ∈ uninstallEvents st r, installCat e = none := by
  unfold uninstallEvents
  dsimp only
  split
  · intro e he
    simp only [List.mem_singleton] at he
    subst he
    rfl
  · intro e he
    rcases List.mem_append.mp he with h | h
    · obtain ⟨fe, _, hfe⟩ := List.mem_map.mp h
      subst hfe
      rfl
    · simp only [List.mem_singleton] at h
      subst h
      rfl

theorem phase3_events_cat (env : Env) :
    ∀ (iter : List Nat) (st : PState) (cache : Cache) (cur : List Nat),
      ∀ e ∈ (phase3 env st cache cur iter).2.2.2, installCat e = none := by
  intro iter
  induction iter with
  | nil => intro st cache cur e he; simp [phase3] at he
  | cons r rest ih =>
    intro st cache cur e he
    unfold phase3 at he
    dsimp only at he
    split at he
    · rcases List.mem_cons.mp he with h | h
      · subst h; rfl
      · exact ih st cache cur e h
    · split at he
      · rcases List.mem_cons.mp he with h | h
        · subst h; rfl
        · exact ih _ _ _ e h
      · rcases List.mem_cons.mp he with h | h
        · subst h; rfl
        · exact ih _ _ _ e h

theorem subFold_events_cat (st : PState) :
    ∀ (l : List Nat) (acc : List Nat × List Event),
      (∀ e ∈ acc.2, installCat e = none) →
      ∀ e ∈ (l.foldl
        (fun acc r =>
          match st.remote.find? (fun q => (st.obj q).name == (st.obj r).name) with
          | some q => (acc.1 ++ [q], acc.2)
          | none => (acc.1, acc.2 ++ [Event.substFailed (st.obj r).name])) acc).2,
        installCat e = none := by
  intro l
  induction l with
  | nil => intro acc hacc e he; exact hacc e he
  | cons r rest ih =>
    intro acc hacc e he
    rw [List.foldl_cons] at he
    refine ih _ ?_ e he
    dsimp only
    split
    · exact hacc
    · intro e' he'
      rcases List.mem_append.mp he' with h | h
      · exact hacc e' h
      · simp only [List.mem_singleton] at h
        subst h
        rfl

theorem mem_of_idx {α : Type} (l : List α) (i : Nat) (a : α) (h : l[i]? = some a) : a ∈ l := by
  have h2 := List.getElem?_eq_some.mp h
  obtain ⟨hlt, he⟩ := h2
  exact he ▸ List.getElem_mem hlt

theorem trace_core_first (a b c d e f : List Event)
    (hA : ∀ ev ∈ a ++ b ++ c ++ d, installCat ev = none ∨ installCat ev = some ModCategories.CORE)
    (hB : ∀ ev ∈ e ++ f, installCat ev ≠ some ModCategories.CORE)
    (i j : Nat) (e1 e2 : Event) (c1 : ModCategories) (hij : i < j)
    (h1 : (a ++ b ++ c ++ d ++ e ++ f)[i]? = some e1)
    (h2 : (a ++ b ++ c ++ d ++ e ++ f)[j]? = some e2)
    (hc1 : installCat e1 = some c1)
    (hc2 : installCat e2 = some ModCategories.CORE) :
    c1 = ModCategories.CORE := by
  have hre : a ++ b ++ c ++ d ++ e ++ f = (a ++ b ++ c ++ d) ++ (e ++ f) := by
    simp only [List.append_assoc]
  rw [hre] at h1 h2
  rw [List.getElem?_append] at h2
  split at h2
  · rename_i hjlt
    rw [List.getElem?_append] at h1
    have hilt : i < (a ++ b ++ c ++ d).length := lt_trans hij hjlt
    rw [if_pos hilt] at h1
    have he1 : e1 ∈ a ++ b ++ c ++ d := mem_of_idx _ i e1 h1
    rcases hA e1 he1 with h | h
    · rw [h] at hc1
      exact absurd hc1 (by simp)
    · rw [h] at hc1
      exact (Option.some.injEq _ _ ▸ hc1.symm :)
  · have he2 : e2 ∈ e ++ f := mem_of_idx _ (j - (a ++ b ++ c ++ d).length) e2 h2
    exact absurd hc2 (hB e2 he2)

theorem installAll_events_ncat (env : Env) (cache : Cache) :
    ∀ (refs : List Nat) (st : PState),
      (∀ r ∈ refs, (st.obj r).category ≠ ModCategories.CORE) →
      ∀ e ∈ (installAll env cache st refs).2, installCat e ≠ some ModCategories.CORE := by
  intro refs
  induction refs with
  | nil => intro st _ e he; simp [installAll] at he
  | cons r rest ih =>
    intro st hcat e he
    unfold installAll at he
    dsimp only at he
    rcases List.mem_append.mp he with h | h
    · rw [installStep_events_cat env st cache r e h]
      intro hcontra
      exact hcat r (by simp) (Option.some.inj hcontra)
    · refine ih (installStep env st cache r).1 ?_ e h
      intro r' hr'
      rw [installStep_cat_stable]
      exact hcat r' (by simp [hr'])

/-- Claim C2: in every run of `patch`, every install-phase action
(extraction, manifest write, failed attempt) for a Core-category record
precedes every install-phase action for a non-Core record in the event
trace, regardless of how the records were queued or how downloads went:
if the trace holds a Core install event at a later position, any install
event at an earlier position is also Core. -/
theorem patch_core_first (env : Env) (st : PState) (i j : Nat) (e1 e2 : Event)
    (c1 : ModCategories) (hij : i < j)
    (h1 : (patch env st).2[i]? = some e1)
    (h2 : (patch env st).2[j]? = some e2)
    (hc1 : installCat e1 = some c1)
    (hc2 : installCat e2 = some ModCategories.CORE) :
    c1 = ModCategories.CORE := by
  unfold patch at h1 h2
  dsimp only at h1 h2
  refine trace_core_first _ _ _ _ _ _ ?_ ?_ i j e1 e2 c1 hij h1 h2 hc1 hc2
  · intro ev hev
    rcases List.mem_append.mp hev with h | h
    · rcases List.mem_append.mp h with h | h
      · rcases List.mem_append.mp h with h | h
        · obtain ⟨r, _, hr⟩ := List.mem_flatMap.mp h
          exact Or.inl (uninstallEvents_cat st r ev hr)
        · exact Or.inl (subFold_events_cat st _ _ (by intro e' he'; simp at he') ev h)
      · exact Or.inl (phase3_events_cat env _ _ _ _ ev h)
    · refine Or.inr (installAll_events_cat env _ ModCategories.CORE _ _ ?_ ev h)
      intro r hr
      have := (List.mem_filter.mp hr).2
      exact beq_iff_eq.mp this
  · intro ev hev
    rcases List.mem_append.mp hev with h | h
    · refine installAll_events_ncat env _ _ _ ?_ ev h
      intro r hr
      rw [installAll_cat_stable]
      have := (List.mem_filter.mp hr).2
      simpa using this
    · obtain ⟨kv, _, hkv⟩ := List.mem_map.mp h
      subst hkv
      simp [installCat]

/-- Member `c.dll` of the Core package archive. -/
def memC : Member := { filename := "c.dll", isDir := false, contentHash := "aa" }

/-- Member `l.dll` of the Library package archive. -/
def memL : Member := { filename := "l.dll", isDir := false, contentHash := "bb" }

/-- A remote Core package `C`, queued for install. -/
def modC : ModSpec :=
  { ModSpec.mk0 "ic" "C" [1] "uC" [] [] ModCategories.CORE [1] with
    need_install := true, is_remote := true }

/-- A remote Library package `L` depending on `C`, queued for install. -/
def modL : ModSpec :=
  { ModSpec.mk0 "il" "L" [1] "uL" [] [Dependency.mk "C"] ModCategories.LIBRARY [1] with
    need_install := true, is_remote := true }

/-- An environment serving the archives of `C` and `L`. -/
def envB : Env :=
  { fetch := fun u =>
      if u == "uC" then some { zip := some [memC] }
      else if u == "uL" then some { zip := some [memL] }
      else none,
    fs := fun _ => none }

/-- Scenario B of the specification with the Library queued first:
`need_install = [L, C]`. -/
def stB : PState :=
  { heap := [modC, modL], locals := [1, 0], remote := [0, 1],
    need_install := [1, 0], need_uninstall := [], need_update := [], path := "root" }

/-- Witness for `patch_core_first` on scenario B: the trace holds the
Core extraction of `c.dll` at index 2 and the Core manifest write at
index 3, ahead of every Library event. -/
theorem patch_core_first_witness : ModCategories.CORE = ModCategories.CORE :=
  patch_core_first envB stB 2 3
    (Event.extracted "C" ModCategories.CORE "root/c.dll")
    (Event.manifestWritten "C" ModCategories.CORE)
    ModCategories.CORE (by decide) (by rfl) (by rfl) (by rfl) (by rfl)

/-! ## Claim C3: phase-three failure handling -/

/-- The single member of `W`'s archive, hash matching `W`'s files list. -/
def memW : Member := { filename := "w.dll", isDir := false, contentHash := "aa" }

/-- The single member of `Z`'s archive, hash NOT matching `Z`'s files list. -/
def memZ : Member := { filename := "z.dll", isDir := false, contentHash := "bb" }

/-- Queued package `X`: its download fails with a network error. -/
def dlX : ModSpec :=
  { ModSpec.mk0 "ix" "X" [1] "uX" [] [] ModCategories.OTHER [1] with need_install := true }

/-- Queued package `Y`: its download succeeds but the payload is not an
openable zip archive. -/
def dlY : ModSpec :=
  { ModSpec.mk0 "iy" "Y" [1] "uY" [] [] ModCategories.OTHER [1] with need_install := true }

/-- Queued package `Z`: its archive opens but a member fails the MD5 check. -/
def dlZ : ModSpec :=
  { ModSpec.mk0 "iz" "Z" [1] "uZ" [FileEntry.mk "z.dll" "cc"] []
      ModCategories.OTHER [1] with need_install := true }

/-- Queued package `W`: everything succeeds. -/
def dlW : ModSpec :=
  { ModSpec.mk0 "iw" "W" [1] "uW" [FileEntry.mk "w.dll" "aa"] []
      ModCategories.OTHER [1] with need_install := true }

/-- The environment for the four downloads: network error for `X`, a
corrupt payload for `Y`, a hash-mismatching archive for `Z`, a good
archive for `W`. -/
def env3 : Env :=
  { fetch := fun u =>
      if u == "uY" then some { zip := none }
      else if u == "uZ" then some { zip := some [memZ] }
      else if u == "uW" then some { zip := some [memW] }
      else none,
    fs := fun _ => none }

/-- All four packages queued for install. -/
def st3 : PState :=
  { heap := [dlX, dlY, dlZ, dlW], locals := [0, 1, 2, 3], remote := [],
    need_install := [0, 1, 2, 3], need_uninstall := [], need_update := [],
    path := "root" }

/-- Claim C3 at its failing input: the network error (`X`) and the MD5
mismatch (`Z`) do remove the records from the install set — no install
event for them appears — but the corrupt (unopenable) archive of `Y`
does NOT: `_verifyArchive` reports it by returning `False`, `_downloadMod`
discards that boolean, so `Y` stays in the install set and phase four
attempts to install it (`installFailed`), contrary to the claim.  `W`
proceeds independently throughout. -/
theorem patch_corrupt_archive_not_removed :
    (patch env3 st3).2 =
      [Event.downloadFailed "X", Event.downloaded "Y", Event.downloadFailed "Z",
       Event.downloaded "W", Event.installFailed "Y" ModCategories.OTHER,
       Event.extracted "W" ModCategories.OTHER "root/w.dll",
       Event.manifestWritten "W" ModCategories.OTHER,
       Event.cacheRemoved "root/.bsmm/cache/W_1.zip",
       Event.cacheRemoved "root/.bsmm/cache/Z_1.zip",
       Event.cacheRemoved "root/.bsmm/cache/Y_1.zip"] := by
  rfl

/-! ## Claims C1 and C4: shape of `addMod` -/

/-- The names of the records referenced by a list of heap indices. -/
def namesOf (st : PState) (refs : List Nat) : List String :=
  refs.map (fun r => (st.obj r).name)

/-- What one (recursive) `addMod` call does to the state: the remote list
is untouched, the heap keeps its size and every object its name, and the
same block of fresh records (pairwise distinct names, none already local)
is appended to both the local catalog and the install queue. -/
def AddShape (st st' : PState) : Prop :=
  st'.remote = st.remote
  ∧ st'.heap.length = st.heap.length
  ∧ (∀ q, (st'.obj q).name = (st.obj q).name)
  ∧ ∃ delta, st'.locals = st.locals ++ delta
      ∧ st'.need_install = st.need_install ++ delta
      ∧ (namesOf st' delta).Nodup
      ∧ ∀ n ∈ namesOf st' delta, n ∉ namesOf st st.locals

theorem namesOf_congr {st st' : PState}
    (h : ∀ q, (st'.obj q).name = (st.obj q).name) (refs : List Nat) :
    namesOf st' refs = namesOf st refs := by
  unfold namesOf
  exact List.map_congr_left (fun r _ => h r)

theorem namesOf_append (st : PState) (a b : List Nat) :
    namesOf st (a ++ b) = namesOf st a ++ namesOf st b := by
  simp [namesOf]

theorem addShape_refl (st : PState) : AddShape st st :=
  ⟨rfl, rfl, fun _ => rfl, [], by simp, by simp, List.nodup_nil, by simp [namesOf]⟩

theorem AddShape.trans {a b c : PState} (h1 : AddShape a b) (h2 : AddShape b c) :
    AddShape a c := by
  obtain ⟨hr1, hh1, hn1, d1, hl1, hi1, hd1, hf1⟩ := h1
  obtain ⟨hr2, hh2, hn2, d2, hl2, hi2, hd2, hf2⟩ := h2
  refine ⟨hr2.trans hr1, hh2.trans hh1, fun q => (hn2 q).trans (hn1 q), d1 ++ d2,
    by rw [hl2, hl1, List.append_assoc], by rw [hi2, hi1, List.append_assoc], ?_, ?_⟩
  · rw [namesOf_append, List.nodup_append]
    refine ⟨by rw [namesOf_congr hn2 d1]; exact hd1, hd2, ?_⟩
    intro n hn hn'
    have := hf2 n hn'
    rw [hl1, namesOf_append] at this
    rw [namesOf_congr hn2 d1] at hn
    exact this (List.mem_append_right _ hn)
  · intro n hn
    rw [namesOf_append] at hn
    rcases List.mem_append.mp hn with h | h
    · rw [namesOf_congr hn2 d1] at h
      exact hf1 n h
    · intro hc
      have := hf2 n h
      rw [hl1, namesOf_append] at this
      exact this (List.mem_append_left _ (by rw [namesOf_congr hn1]; exact hc))

theorem obj_name_setObj (st : PState) (r : Nat) (m : ModSpec)
    (h : m.name = (st.obj r).name) (q : Nat) :
    ((st.setObj r m).obj q).name = (st.obj q).name := by
  rw [obj_setObj]
  split
  · rename_i hq
    rw [h, hq.1]
  · rfl

theorem setObj_heap_length (st : PState) (r : Nat) (m : ModSpec) :
    (st.setObj r m).heap.length = st.heap.length := by
  simp [PState.setObj]

theorem find?_name_some {st : PState} {l : List Nat} {n : String} {r : Nat}
    (h : l.find? (fun q => (st.obj q).name == n) = some r) :
    (st.obj r).name = n ∧ r ∈ l := by
  have hp := List.find?_some h
  have hm := List.mem_of_find?_eq_some h
  simp only [beq_iff_eq] at hp
  exact ⟨hp, hm⟩

theorem find?_name_none {st : PState} {l : List Nat} {n : String}
    (h : l.find? (fun q => (st.obj q).name == n) = none) :
    n ∉ namesOf st l := by
  intro hc
  obtain ⟨r, hr, hname⟩ := List.mem_map.mp hc
  have := List.find?_eq_none.mp h r hr
  rw [hname] at this
  simp at this

theorem any_name_false {st : PState} {l : List Nat} {n : String}
    (h : l.any (fun q => (st.obj q).name == n) = false) :
    n ∉ namesOf st l := by
  intro hc
  obtain ⟨r, hr, hname⟩ := List.mem_map.mp hc
  have := List.any_eq_false.mp h r hr
  rw [hname] at this
  simp at this

theorem any_name_true {st : PState} {l : List Nat} {n : String}
    (h : l.any (fun q => (st.obj q).name == n) = true) :
    n ∈ namesOf st l := by
  obtain ⟨r, hr, hname⟩ := List.any_eq_true.mp h
  exact List.mem_map.mpr ⟨r, hr, beq_iff_eq.mp hname⟩

theorem addModStep3_spec (st : PState) (ref : Nat) (src : Option Nat)
    (hfind : st.locals.find? (fun q => (st.obj q).name == (st.obj ref).name) = none) :
    AddShape st (addModStep3 st ref src).1
    ∧ ((addModStep3 st ref src).1.obj (addModStep3 st ref src).2).name = (st.obj ref).name
    ∧ (addModStep3 st ref src).1.locals = st.locals ++ [(addModStep3 st ref src).2]
    ∧ (addModStep3 st ref src).1.need_install
        = st.need_install ++ [(addModStep3 st ref src).2] := by
  have hfresh := find?_name_none hfind
  unfold addModStep3
  dsimp only
  set r2 := (st.remote.find? (fun r => (st.obj r).name == (st.obj ref).name)).getD ref with hr2
  have hname2 : (st.obj r2).name = (st.obj ref).name := by
    rw [hr2]
    cases hfr : st.remote.find? (fun r => (st.obj r).name == (st.obj ref).name) with
    | none => rfl
    | some q => exact (find?_name_some hfr).1
  cases src with
  | none =>
    dsimp only
    have hnames : ∀ q, (((st.setObj r2 { st.obj r2 with need_install := true }).obj q)).name
        = (st.obj q).name :=
      fun q => obj_name_setObj st r2 { st.obj r2 with need_install := true } rfl q
    refine ⟨⟨rfl, setObj_heap_length st r2 _, hnames, ?_⟩, ?_, rfl, rfl⟩
    · refine ⟨[r2], rfl, rfl, List.nodup_singleton _, ?_⟩
      intro n hn
      simp only [namesOf, List.map_cons, List.map_nil, List.mem_singleton] at hn
      rw [hn]
      intro hc
      apply hfresh
      have key : (((st.setObj r2 { st.obj r2 with need_install := true }).obj r2)).name
          = (st.obj ref).name := (hnames r2).trans hname2
      rw [← key]
      exact hc
    · exact (hnames r2).trans hname2
  | some f =>
    dsimp only
    set st1 := st.setObj r2 { st.obj r2 with source := some f } with hst1
    have hn1 : ∀ q, ((st1.obj q)).name = (st.obj q).name := by
      intro q
      rw [hst1]
      exact obj_name_setObj st r2 { st.obj r2 with source := some f } rfl q
    have hnames : ∀ q, (((st1.setObj r2 { st1.obj r2 with need_install := true }).obj q)).name
        = (st.obj q).name :=
      fun q => (obj_name_setObj st1 r2 { st1.obj r2 with need_install := true } rfl q).trans (hn1 q)
    refine ⟨⟨rfl, (setObj_heap_length st1 r2 _).trans (setObj_heap_length st r2 _), hnames, ?_⟩,
      ?_, rfl, rfl⟩
    · refine ⟨[r2], rfl, rfl, List.nodup_singleton _, ?_⟩
      intro n hn
      simp only [namesOf, List.map_cons, List.map_nil, List.mem_singleton] at hn
      rw [hn]
      intro hc
      apply hfresh
      have key : (((st1.setObj r2 { st1.obj r2 with need_install := true }).obj r2)).name
          = (st.obj ref).name := (hnames r2).trans hname2
      rw [← key]
      exact hc
    · exact (hnames r2).trans hname2

theorem depLoop_shape (recur : PState → Nat → Option Nat → Option PState)
    (hrec : ∀ s q p s', recur s q p = some s' → AddShape s s') :
    ∀ (deps : List Dependency) (st : PState) (parent : Nat) (st' : PState),
      depLoop recur parent st deps = some st' → AddShape st st' := by
  intro deps
  induction deps with
  | nil =>
    intro st parent st' h
    unfold depLoop at h
    cases h
    exact addShape_refl st
  | cons d rest ih =>
    intro st parent st' h
    unfold depLoop at h
    split at h
    · exact ih st parent st' h
    · split at h
      · rename_i r hfindr
        cases hr2 : recur st r (some parent) with
        | none => rw [hr2] at h; exact absurd h (by simp)
        | some st2 =>
          rw [hr2] at h
          exact AddShape.trans (hrec st r (some parent) st2 hr2) (ih st2 parent st' h)
      · exact ih st parent st' h

theorem addMod_shape : ∀ (fuel : Nat) (st : PState) (ref : Nat) (src : Option Nat)
    (st' : PState), addMod fuel st ref src = some st' →
    AddShape st st'
    ∧ ((st.obj ref).name ∉ namesOf st st.locals →
        (st.obj ref).name ∈ namesOf st' st'.locals
        ∧ (st.obj ref).name ∈ namesOf st' st'.need_install) := by
  intro fuel
  induction fuel with
  | zero =>
    intro st ref src st' h
    simp [addMod] at h
  | succ fuel ih =>
    intro st ref src st' h
    rw [addMod] at h
    dsimp only at h
    split at h
    · rename_i r hfind
      have hr := find?_name_some hfind
      have hmem : (st.obj ref).name ∈ namesOf st st.locals :=
        List.mem_map.mpr ⟨r, hr.2, hr.1⟩
      split at h
      · rename_i hu
        cases h
        refine ⟨⟨rfl, setObj_heap_length _ _ _, ?_, [], by simp [PState.setObj], by
          simp [PState.setObj], List.nodup_nil, by simp [namesOf]⟩, fun hc => absurd hmem hc⟩
        intro q
        exact obj_name_setObj _ r { st.obj r with need_uninstall := false } rfl q
      · cases h
        exact ⟨addShape_refl st, fun hc => absurd hmem hc⟩
    · rename_i hfind
      have hstep := addModStep3_spec st ref src hfind
      have hloop := depLoop_shape (fun s q p => addMod fuel s q p)
        (fun s q p s' hh => (ih s q p s' hh).1) _ _ _ _ h
      have hshape := AddShape.trans hstep.1 hloop
      refine ⟨hshape, ?_⟩
      intro _
      obtain ⟨hr2, hh2, hn2, d2, hl2, hi2, _, _⟩ := hloop
      have hrefmem : (addModStep3 st ref src).2 ∈ st'.locals := by
        rw [hl2, hstep.2.2.1]
        exact List.mem_append_left _ (List.mem_append_right _ (List.mem_singleton.mpr rfl))
      have hrefmem2 : (addModStep3 st ref src).2 ∈ st'.need_install := by
        rw [hi2, hstep.2.2.2]
        exact List.mem_append_left _ (List.mem_append_right _ (List.mem_singleton.mpr rfl))
      have hnameref : (st'.obj (addModStep3 st ref src).2).name = (st.obj ref).name :=
        (hn2 _).trans hstep.2.1
      exact ⟨List.mem_map.mpr ⟨_, hrefmem, hnameref⟩,
        List.mem_map.mpr ⟨_, hrefmem2, hnameref⟩⟩

/-- The recursion budget `addMod` actually needs from a given state: the
number of remote names that are neither local yet nor the requested name. -/
def fuelNeed (st : PState) (ref : Nat) : Nat :=
  ((namesOf st st.remote).toFinset
    \ ((namesOf st st.locals).toFinset ∪ {(st.obj ref).name})).card

theorem depLoop_total (fuel : Nat) (R0 L0sn : Finset String)
    (hcard : (R0 \ L0sn).card ≤ fuel)
    (hrec : ∀ s q p, fuelNeed s q < fuel → (addMod fuel s q p).isSome) :
    ∀ (deps : List Dependency) (st2 : PState) (parent : Nat),
      (namesOf st2 st2.remote).toFinset = R0 →
      L0sn ⊆ (namesOf st2 st2.locals).toFinset →
      (depLoop (fun s q p => addMod fuel s q p) parent st2 deps).isSome := by
  intro deps
  induction deps with
  | nil => intro st2 parent _ _; simp [depLoop]
  | cons d rest ihd =>
    intro st2 parent hR hL
    unfold depLoop
    split
    · exact ihd st2 parent hR hL
    · rename_i hany
      split
      · rename_i r hfr
        have hname := find?_name_some hfr
        have hdR : d.name ∈ R0 := by
          rw [← hR]
          exact List.mem_toFinset.mpr (List.mem_map.mpr ⟨r, hname.2, hname.1⟩)
        have hnotL : d.name ∉ (namesOf st2 st2.locals).toFinset := by
          intro hc
          exact any_name_false (Bool.of_not_eq_true hany) (List.mem_toFinset.mp hc)
        have hdRL : d.name ∈ R0 \ L0sn :=
          Finset.mem_sdiff.mpr ⟨hdR, fun hc => hnotL (hL hc)⟩
        have hmu : fuelNeed st2 r < fuel := by
          unfold fuelNeed
          rw [hname.1, hR]
          have hsub : R0 \ ((namesOf st2 st2.locals).toFinset ∪ {d.name})
              ⊆ (R0 \ L0sn).erase d.name := by
            intro x hx
            obtain ⟨hxR, hxn⟩ := Finset.mem_sdiff.mp hx
            rw [Finset.mem_union] at hxn
            push_neg at hxn
            refine Finset.mem_erase.mpr ⟨?_, Finset.mem_sdiff.mpr ⟨hxR, fun hc => hxn.1 (hL hc)⟩⟩
            intro hc
            exact hxn.2 (by rw [hc]; exact Finset.mem_singleton_self _)
          have h1 := Finset.card_le_card hsub
          have h2 : ((R0 \ L0sn).erase d.name).card = (R0 \ L0sn).card - 1 :=
            Finset.card_erase_of_mem hdRL
          have h3 : 1 ≤ (R0 \ L0sn).card := Finset.card_pos.mpr ⟨d.name, hdRL⟩
          omega
        have hsome := hrec st2 r (some parent) hmu
        rw [Option.isSome_iff_exists] at hsome
        obtain ⟨st3, heq⟩ := hsome
        rw [heq]
        dsimp only
        have hshape := (addMod_shape fuel st2 r (some parent) st3 heq).1
        obtain ⟨hrm, _, hnm, delta, hlc, _, _, _⟩ := hshape
        refine ihd st3 parent ?_ ?_
        · rw [hrm, namesOf_congr hnm, hR]
        · intro x hx
          rw [hlc, namesOf_append, List.toFinset_append, namesOf_congr hnm]
          exact Finset.mem_union_left _ (hL hx)
      · exact ihd st2 parent hR hL

/-- Claim C1, amended: the dependency expansion of `addMod` terminates on
every input — circular dependency chains included — because the record is
appended to the local catalog before its dependencies are processed, so a
name re-encountered on the current resolution path is already local and
treated as satisfied.  Formally, any fuel exceeding `fuelNeed` (the count
of remote names not yet local) is enough for the fuel-indexed model never
to hit the fuel bound. -/
theorem addMod_total : ∀ (fuel : Nat) (st : PState) (ref : Nat) (src : Option Nat),
    fuelNeed st ref < fuel → (addMod fuel st ref src).isSome := by
  intro fuel
  induction fuel with
  | zero => intro st ref src h; exact absurd h (by omega)
  | succ fuel ih =>
    intro st ref src h
    rw [addMod]
    dsimp only
    split
    · split <;> simp
    · rename_i hfind
      have hstep := addModStep3_spec st ref src hfind
      obtain ⟨⟨hrm, _, hnm, _⟩, hname2, hlocals, _⟩ := hstep
      refine depLoop_total fuel ((namesOf st st.remote).toFinset)
        (((namesOf st st.locals).toFinset ∪ {(st.obj ref).name}))
        (by unfold fuelNeed at h; omega) ih _ _ _ ?_ ?_
      · rw [hrm, namesOf_congr hnm]
      · intro x hx
        rw [hlocals, namesOf_append, List.toFinset_append]
        rcases Finset.mem_union.mp hx with hx | hx
        · rw [namesOf_congr hnm]
          exact Finset.mem_union_left _ hx
        · refine Finset.mem_union_right _ ?_
          rw [Finset.mem_singleton.mp hx]
          simp only [namesOf, List.map_cons, List.map_nil]
          rw [hname2]
          simp

/-- Remote package `A` depending on `B`. -/
def cycA : ModSpec :=
  { ModSpec.mk0 "ida" "A" [1] "uA" [] [Dependency.mk "B"] ModCategories.LIBRARY [1] with
    is_remote := true }

/-- Remote package `B` depending on `A`. -/
def cycB : ModSpec :=
  { ModSpec.mk0 "idb" "B" [1] "uB" [] [Dependency.mk "A"] ModCategories.LIBRARY [1] with
    is_remote := true }

/-- An empty local catalog facing the circular remote pair `A ↔ B`. -/
def cycSt : PState :=
  { heap := [cycA, cycB], locals := [], remote := [0, 1],
    need_install := [], need_uninstall := [], need_update := [], path := "root" }

/-- Claim C1, counterexample: on the canonical circular chain of
remote-only packages (`A` requires `B`, `B` requires `A`, neither local),
`queueInstall(A)` terminates — at recursion depth 2 and identically for
any larger depth — and queues exactly `A` and `B`: the record is already
in the local catalog while its dependencies resolve, so the cycle is cut. -/
theorem addMod_cycle_terminates :
    (addMod 2 cycSt 0 none).isSome = true
    ∧ addMod 1000 cycSt 0 none = addMod 2 cycSt 0 none
    ∧ namesOf ((addMod 2 cycSt 0 none).getD cycSt)
        ((addMod 2 cycSt 0 none).getD cycSt).need_install = ["A", "B"] := by
  refine ⟨rfl, rfl, rfl⟩

/-- Witness for `addMod_total` on the circular state: `fuelNeed` is 1
there, so fuel 2 suffices. -/
theorem addMod_total_witness : (addMod 2 cycSt 0 none).isSome = true :=
  addMod_total 2 cycSt 0 none (by decide)

theorem count_one_of_nodup_mem {l : List String} {a : String}
    (hd : l.Nodup) (hm : a ∈ l) : l.count a = 1 :=
  List.count_eq_one_of_mem hd hm

/-- Claim C4: `queueInstall` (`addMod`) is idempotent per package name.
A second call whose name already has a local record stops at step one:
if that record is queued for uninstall, only the pending uninstall is
cancelled — the local catalog and the install queue are untouched;
otherwise (queued for install, or installed) the state is returned
entirely unchanged.  And a first call on a name not yet in the local
catalog or install queue leaves the name in the local catalog and the
install queue exactly once. -/
theorem addMod_idempotent (fuel : Nat) (st : PState) (ref : Nat) (src : Option Nat) :
    (∀ r, st.locals.find? (fun q => (st.obj q).name == (st.obj ref).name) = some r →
      (st.obj r).need_uninstall = false →
      addMod (fuel + 1) st ref src = some st)
    ∧ (∀ r, st.locals.find? (fun q => (st.obj q).name == (st.obj ref).name) = some r →
      (st.obj r).need_uninstall = true →
      addMod (fuel + 1) st ref src
        = some (({ st with need_uninstall := st.need_uninstall.erase r } : PState).setObj r
            { st.obj r with need_uninstall := false })
      ∧ (({ st with need_uninstall := st.need_uninstall.erase r } : PState).setObj r
          { st.obj r with need_uninstall := false }).locals = st.locals
      ∧ (({ st with need_uninstall := st.need_uninstall.erase r } : PState).setObj r
          { st.obj r with need_uninstall := false }).need_install = st.need_install)
    ∧ (∀ st', (st.obj ref).name ∉ namesOf st st.locals →
        (st.obj ref).name ∉ namesOf st st.need_install →
        addMod fuel st ref src = some st' →
        (namesOf st' st'.locals).count (st.obj ref).name = 1
        ∧ (namesOf st' st'.need_install).count (st.obj ref).name = 1) := by
  refine ⟨?_, ?_, ?_⟩
  · intro r hfind hu
    rw [addMod]
    dsimp only
    rw [hfind]
    dsimp only
    rw [hu]
    simp
  · intro r hfind hu
    refine ⟨?_, rfl, rfl⟩
    rw [addMod]
    dsimp only
    rw [hfind]
    dsimp only
    rw [hu]
    simp
  · intro st' hnl hni h
    obtain ⟨hshape, hbullet⟩ := addMod_shape fuel st ref src st' h
    obtain ⟨_, _, hnm, delta, hlc, hic, hnd, hfr⟩ := hshape
    have hmem := hbullet hnl
    have hdelta_l : (st.obj ref).name ∈ namesOf st' delta := by
      have := hmem.1
      rw [hlc, namesOf_append] at this
      rcases List.mem_append.mp this with hx | hx
      · rw [namesOf_congr hnm] at hx
        exact absurd hx hnl
      · exact hx
    constructor
    · rw [hlc, namesOf_append, List.count_append, namesOf_congr hnm,
        List.count_eq_zero.mpr hnl, count_one_of_nodup_mem hnd hdelta_l]
    · rw [hic, namesOf_append, List.count_append, namesOf_congr hnm,
        List.count_eq_zero.mpr hni, count_one_of_nodup_mem hnd hdelta_l]

/-- A record `P` queued for install (the state after a first
`queueInstall(P)`). -/
def wQueued : ModSpec :=
  { ModSpec.mk0 "wa" "P" [1] "u" [] [] ModCategories.OTHER [1] with need_install := true }

/-- The patcher state with `P` queued for install. -/
def wStQ : PState :=
  { heap := [wQueued], locals := [0], remote := [], need_install := [0],
    need_uninstall := [], need_update := [], path := "root" }

/-- A record `Q` not yet known to the patcher. -/
def wFresh : ModSpec :=
  ModSpec.mk0 "wb" "Q" [1] "u" [] [] ModCategories.OTHER [1]

/-- The patcher state before a first `queueInstall(Q)`. -/
def wStF : PState :=
  { heap := [wFresh], locals := [], remote := [], need_install := [],
    need_uninstall := [], need_update := [], path := "root" }

/-- Witness for `addMod_idempotent`: a second call on queued `P` changes
nothing, and a first call on fresh `Q` puts its name exactly once into
the local catalog and the install queue. -/
theorem addMod_idempotent_witness :
    addMod 3 wStQ 0 none = some wStQ
    ∧ (namesOf ((addMod 1 wStF 0 none).getD wStF)
          ((addMod 1 wStF 0 none).getD wStF).locals).count ((wStF.obj 0).name) = 1
    ∧ (namesOf ((addMod 1 wStF 0 none).getD wStF)
          ((addMod 1 wStF 0 none).getD wStF).need_install).count ((wStF.obj 0).name) = 1 := by
  refine ⟨(addMod_idempotent 2 wStQ 0 none).1 0 (by rfl) (by rfl), ?_, ?_⟩
  · exact ((addMod_idempotent 1 wStF 0 none).2.2 ((addMod 1 wStF 0 none).getD wStF)
      (by decide) (by decide) (by rfl)).1
  · exact ((addMod_idempotent 1 wStF 0 none).2.2 ((addMod 1 wStF 0 none).getD wStF)
      (by decide) (by decide) (by rfl)).2
